import Mathlib

/-!
Verification of the Phasmo Expense Calculator (`app/main.py`) against its
natural-language specification.

The Python source is shallowly embedded below.  Python `float` totals and
volumes are modelled as `ℚ`; Python `int` levels as `ℤ`; the `dict[int,
QSoundEffect]` of sound effects as an association list `List (ℤ ×
SoundEffect)` (keys looked up with `dict.get` become `findEff`); the
mutable `QSoundEffect` objects carry the two pieces of state the code reads
or writes (`isPlaying`, volume).  Fallible operations return `Option` /
`Except`.  The database module (`app/db.py`) is not part of the sources;
where a claim depends on it, the missing function is modelled from the
spec and marked as such in its doc comment.
-/

/-- Observable state of one `QSoundEffect`: whether it `isPlaying()` and its
volume.  A freshly constructed effect is not playing. -/
structure SoundEffect where
  playing : Bool
  volume : ℚ
  deriving DecidableEq, Repr

/-- State of the `EMFSound` wrapper object (`main.py` lines 38-84):
the `enabled` flag, the current tier `cur_level`, and the `effects` dict. -/
structure EMFSound where
  enabled : Bool
  cur_level : ℤ
  effects : List (ℤ × SoundEffect)
  deriving DecidableEq, Repr

/-- Embedding of `self.effects.get(level)`: association-list lookup, `none`
on a missing key (so no `KeyError` can occur). -/
def findEff (l : ℤ) : List (ℤ × SoundEffect) → Option SoundEffect
  | [] => none
  | p :: ps => if p.1 = l then some p.2 else findEff l ps

/-- In-place mutation of the effect stored at key `l` (Python mutates the
`QSoundEffect` object held in the dict). -/
def setEff (l : ℤ) (e : SoundEffect) (es : List (ℤ × SoundEffect)) :
    List (ℤ × SoundEffect) :=
  es.map (fun p => if p.1 = l then (p.1, e) else p)

/-- Successful `QSoundEffect.stop()`: the effect stops playing. -/
def stopOne (e : SoundEffect) : SoundEffect := { e with playing := false }

/-- Embedding of `EMFSound.stop` (`main.py` lines 59-63), parametrised by
the behaviour
`f` of the underlying `s.stop()` call, which Python wraps in
`try: s.stop() / except Exception: pass`: a raising stop (`Except.error`)
is swallowed and leaves that effect unchanged.  Afterwards
`self.cur_level = 1`. -/
def EMFSound.stopWith (f : ℤ → SoundEffect → Except String SoundEffect)
    (st : EMFSound) : EMFSound :=
  { st with
    effects := st.effects.map (fun p =>
      match f p.1 p.2 with
      | .ok e => (p.1, e)
      | .error _ => p),
    cur_level := 1 }

/-- The method `EMFSound.stop` with the normal (non-raising)
`QSoundEffect.stop()`. -/
def EMFSound.stop (st : EMFSound) : EMFSound :=
  st.stopWith (fun _ e => .ok (stopOne e))

/-- Variant of `EMFSound.stop` as it would behave WITHOUT the `try/except`
— modelled from the words of the spec, which say the only error handling in the program is
the catch-all around PDF export: here an exception from any `s.stop()`
propagates out of `stop`. -/
def EMFSound.stop_spec_nocatch
    (f : ℤ → SoundEffect → Except String SoundEffect)
    (st : EMFSound) : Except String EMFSound := do
  let mut es : List (ℤ × SoundEffect) := []
  for p in st.effects do
    let e ← f p.1 p.2
    es := es ++ [(p.1, e)]
  return { st with effects := es, cur_level := 1 }

/-- Embedding of `EMFSound.set_muted` (`main.py` lines 53-57).  `hs` is the module-level
`HAVE_SOUND` flag.  `self.enabled = not muted and HAVE_SOUND`, then
`if muted: self.stop()`. -/
def EMFSound.set_muted (st : EMFSound) (hs : Bool) (muted : Bool) : EMFSound :=
  let st1 := { st with enabled := !muted && hs }
  if muted then st1.stop else st1

/-- Embedding of `EMFSound.play_for_level` (`main.py` lines 65-84). -/
def EMFSound.play_for_level (st : EMFSound) (level : ℤ) : EMFSound :=
  if !st.enabled || st.effects.isEmpty then
    st.stop
  else
    let lv := max 1 (min 5 level)
    if lv = 1 then
      st.stop
    else if lv = st.cur_level then
      match findEff lv st.effects with
      | some eff => if eff.playing then st
          else { st with effects := setEff lv { eff with playing := true } st.effects }
      | none => st
    else
      let st1 := st.stop
      let st2 := { st1 with cur_level := lv }
      match findEff lv st2.effects with
      | some _ =>
          { st2 with effects := setEff lv ⟨true, (0.85 : ℚ)⟩ st2.effects }
      | none => st2

/-- Embedding of `EMFSound.__init__` (`main.py` lines 39-51).  `hs` is `HAVE_SOUND`;
`wavExists l` tells whether `assets/emf{l}.wav` exists.  Effects are built
only when enabled, only for levels 2-5 whose wav file exists; a fresh
`QSoundEffect` is not playing and has volume 0.85. -/
def EMFSound.init (hs : Bool) (wavExists : ℤ → Bool) (enabled : Bool) :
    EMFSound :=
  let en := enabled && hs
  { enabled := en
    cur_level := 1
    effects :=
      if en then
        (([2, 3, 4, 5] : List ℤ).filter (fun l => wavExists l)).map
          (fun l => (l, ⟨false, (0.85 : ℚ)⟩))
      else [] }

/-- Embedding of `emf_level_from_total` (`main.py` lines 86-91). -/
def emf_level_from_total (total : ℚ) : ℤ :=
  if total ≥ 2000 then 5
  else if total ≥ 1500 then 4
  else if total ≥ 1000 then 3
  else if total ≥ 500 then 2
  else 1

-- Shared helper lemmas ------------------------------------------------------

/-- The function `emf_level_from_total` always lands in the five tiers. -/
lemma emf_level_cases (t : ℚ) :
    emf_level_from_total t = 1 ∨ emf_level_from_total t = 2 ∨
    emf_level_from_total t = 3 ∨ emf_level_from_total t = 4 ∨
    emf_level_from_total t = 5 := by
  unfold emf_level_from_total
  split_ifs <;> simp

-- C1 ------------------------------------------------------------------------

/-- C1: for every monthly total, `emf_level_from_total` returns one of
exactly five discrete tiers — an integer in {1, 2, 3, 4, 5} — and each of
the five tiers is attained for some total. -/
theorem emf_level_five_tiers :
    (∀ t : ℚ, emf_level_from_total t = 1 ∨ emf_level_from_total t = 2 ∨
      emf_level_from_total t = 3 ∨ emf_level_from_total t = 4 ∨
      emf_level_from_total t = 5) ∧
    emf_level_from_total 0 = 1 ∧ emf_level_from_total 500 = 2 ∧
    emf_level_from_total 1000 = 3 ∧ emf_level_from_total 1500 = 4 ∧
    emf_level_from_total 2000 = 5 := by
  refine ⟨emf_level_cases, ?_, ?_, ?_, ?_, ?_⟩ <;>
    · unfold emf_level_from_total
      norm_num

-- C10 -----------------------------------------------------------------------

/-- C10: `emf_level_from_total` is monotone nondecreasing: totals `t1 ≤ t2`
give tiers `emf_level_from_total t1 ≤ emf_level_from_total t2`. -/
theorem emf_level_monotone (t1 t2 : ℚ) (h : t1 ≤ t2) :
    emf_level_from_total t1 ≤ emf_level_from_total t2 := by
  unfold emf_level_from_total
  split_ifs <;> first | omega | (exfalso; linarith)

/-- Witness for C10 at the concrete totals 400 and 1600. -/
theorem emf_level_monotone_witness :
    (400 : ℚ) ≤ 1600 ∧
    emf_level_from_total 400 ≤ emf_level_from_total 1600 :=
  ⟨by norm_num, emf_level_monotone 400 1600 (by norm_num)⟩

-- C2 ------------------------------------------------------------------------

/-- UI state touched by `MainWindow` that the claims mention: the total
label, the stylesheet string of the EMF dot, the EMF text label, and the table
rows (each rendered row is a list of cell strings). -/
structure UIState where
  lbl_total : String
  emf_dot_style : String
  lbl_emf : String
  table : List (List String)
  deriving DecidableEq, Repr

/-- The mutable program state visible to `main.py`: the UI widgets of the window
and the `EMFSound` object. -/
structure World where
  ui : UIState
  sfx : EMFSound
  deriving DecidableEq, Repr

/-- The function `emf_level_from_total` in state-passing form.  The Python function body
(`main.py` lines 86-91) reads only its argument and writes nothing, so the
embedding threads the world through unchanged. -/
def emf_level_from_total_st (w : World) (total : ℚ) : ℤ × World :=
  (emf_level_from_total total, w)

/-- C2: `emf_level_from_total` is a pure lookup table — two calls with
equal totals return the same tier whatever the surrounding program state,
and a call leaves the state unchanged. -/
theorem emf_level_pure (w1 w2 : World) (t : ℚ) :
    (emf_level_from_total_st w1 t).1 = (emf_level_from_total_st w2 t).1 ∧
    (emf_level_from_total_st w1 t).2 = w1 := ⟨rfl, rfl⟩

-- C8 ------------------------------------------------------------------------

/-- C8: `EMFSound.play_for_level` is total over all integers: a call with
an out-of-range level behaves exactly as a call with the nearest valid
tier `max 1 (min 5 level)`, and (by the `Option`-valued `findEff`
embedding of `dict.get`) no call can fail on a missing effect. -/
theorem play_for_level_clamps (st : EMFSound) (level : ℤ) :
    st.play_for_level level = st.play_for_level (max 1 (min 5 level)) := by
  unfold EMFSound.play_for_level
  have hidem : max 1 (min 5 (max 1 (min 5 level))) = max 1 (min 5 level) := by
    omega
  rw [hidem]

-- Lookup/update lemmas shared by the EMFSound claims -------------------------

lemma findEff_map (g : SoundEffect → SoundEffect) (l : ℤ)
    (es : List (ℤ × SoundEffect)) :
    findEff l (es.map (fun p => (p.1, g p.2))) =
      (findEff l es).map g := by
  induction es with
  | nil => rfl
  | cons p ps ih =>
    simp only [List.map_cons, findEff]
    split_ifs <;> simp [ih]

lemma findEff_setEff_ne (l l' : ℤ) (e : SoundEffect)
    (es : List (ℤ × SoundEffect)) (hne : l ≠ l') :
    findEff l (setEff l' e es) = findEff l es := by
  induction es with
  | nil => rfl
  | cons p ps ih =>
    simp only [setEff, List.map_cons] at ih ⊢
    by_cases hp : p.1 = l'
    · have hpl : ¬ p.1 = l := fun h => hne (h.symm.trans hp)
      rw [if_pos hp]
      simp only [findEff, if_neg hpl]
      exact ih
    · rw [if_neg hp]
      simp only [findEff]
      by_cases hpl : p.1 = l
      · rw [if_pos hpl, if_pos hpl]
      · rw [if_neg hpl, if_neg hpl]
        exact ih

lemma findEff_setEff_eq (l : ℤ) (e x : SoundEffect)
    (es : List (ℤ × SoundEffect)) (hx : findEff l es = some x) :
    findEff l (setEff l e es) = some e := by
  induction es with
  | nil => exact absurd hx (by simp [findEff])
  | cons p ps ih =>
    simp only [setEff, List.map_cons] at ih ⊢
    by_cases hp : p.1 = l
    · rw [if_pos hp]
      simp only [findEff, if_pos hp]
    · rw [if_neg hp]
      simp only [findEff, if_neg hp] at hx ⊢
      exact ih hx

lemma stop_effects (st : EMFSound) :
    st.stop.effects = st.effects.map (fun p => (p.1, stopOne p.2)) := rfl

lemma stop_cur_level (st : EMFSound) : st.stop.cur_level = 1 := rfl

lemma stop_enabled (st : EMFSound) : st.stop.enabled = st.enabled := rfl

-- C3 ------------------------------------------------------------------------

/-- C3 counterexample: the claim says that for level 3 (in 2-5), sound
enabled, and level different from `cur_level`, `cur_level` is updated to
the new level — but with an empty effects dict (`not self.effects`) the
code stops instead, leaving `cur_level = 1`, not 3. -/
theorem play_for_level_cur_level_cex :
    (EMFSound.play_for_level ⟨true, 1, []⟩ 3).cur_level ≠ 3 := by decide

/-- The "switch level" branch of `play_for_level` when the new level has no
loaded clip. -/
lemma play_for_level_switch_none (st : EMFSound) (level : ℤ)
    (hen : st.enabled = true) (hne : st.effects ≠ [])
    (h2 : 2 ≤ level) (h5 : level ≤ 5) (hd : level ≠ st.cur_level)
    (hfind : findEff level st.stop.effects = none) :
    st.play_for_level level = { st.stop with cur_level := level } := by
  have hie : st.effects.isEmpty = false := by
    cases hst : st.effects with
    | nil => exact absurd hst hne
    | cons a l => rfl
  have hcl : max 1 (min 5 level) = level := by omega
  have h1 : level ≠ 1 := by omega
  unfold EMFSound.play_for_level
  rw [hen, hie]
  simp only [Bool.not_true, Bool.false_or, Bool.false_eq_true, if_false, hcl,
    if_neg h1, if_neg hd]
  rw [hfind]

/-- The "switch level" branch of `play_for_level` when the new level has a
loaded clip: `setVolume(0.85)` then `play()`. -/
lemma play_for_level_switch_some (st : EMFSound) (level : ℤ)
    (e1 : SoundEffect)
    (hen : st.enabled = true) (hne : st.effects ≠ [])
    (h2 : 2 ≤ level) (h5 : level ≤ 5) (hd : level ≠ st.cur_level)
    (hfind : findEff level st.stop.effects = some e1) :
    st.play_for_level level =
      { st.stop with
          cur_level := level
          effects := setEff level ⟨true, (0.85 : ℚ)⟩ st.stop.effects } := by
  have hie : st.effects.isEmpty = false := by
    cases hst : st.effects with
    | nil => exact absurd hst hne
    | cons a l => rfl
  have hcl : max 1 (min 5 level) = level := by omega
  have h1 : level ≠ 1 := by omega
  unfold EMFSound.play_for_level
  rw [hen, hie]
  simp only [Bool.not_true, Bool.false_or, Bool.false_eq_true, if_false, hcl,
    if_neg h1, if_neg hd]
  rw [hfind]

/-- C3 (amended): `play_for_level` starts/stops the looping clip according
to the tier.  If sound is disabled or the clamped level is 1, all effects
are stopped and `cur_level` resets to 1.  If the level is in 2-5, sound is
enabled, the effects dict is nonempty, and the level differs from
`cur_level`, then the previously playing clip is stopped (every clip other
than the one for the new level ends up not playing), the looping clip for the new
level is started whenever that level has a loaded clip, and `cur_level` is
updated to the new level. -/
theorem play_for_level_tier_sync :
    (∀ (st : EMFSound) (level : ℤ),
        st.enabled = false ∨ max 1 (min 5 level) = 1 →
        st.play_for_level level = st.stop) ∧
    (∀ (st : EMFSound) (level : ℤ),
        st.enabled = true → st.effects ≠ [] →
        2 ≤ level → level ≤ 5 → level ≠ st.cur_level →
        (st.play_for_level level).cur_level = level ∧
        (∀ l e, l ≠ level →
            findEff l (st.play_for_level level).effects = some e →
            e.playing = false) ∧
        (∀ e, findEff level st.effects = some e →
            findEff level (st.play_for_level level).effects =
              some ⟨true, (0.85 : ℚ)⟩)) := by
  constructor
  · intro st level h
    rcases h with h | h
    · simp [EMFSound.play_for_level, h]
    · by_cases hg : (!st.enabled || st.effects.isEmpty) = true
      · simp [EMFSound.play_for_level, hg]
      · simp only [EMFSound.play_for_level]
        rw [if_neg hg, if_pos h]
  · intro st level hen hne h2 h5 hd
    have hstop : ∀ l e, findEff l st.stop.effects = some e →
        e.playing = false := by
      intro l e he
      rw [stop_effects, findEff_map] at he
      rcases hfe : findEff l st.effects with _ | e0 <;> rw [hfe] at he
      · exact absurd he (by simp)
      · injection he with he0
        rw [← he0]
        rfl
    rcases hfind : findEff level st.stop.effects with _ | e1
    · rw [play_for_level_switch_none st level hen hne h2 h5 hd hfind]
      refine ⟨rfl, ?_, ?_⟩
      · intro l e _ he
        exact hstop l e he
      · intro e he
        rw [stop_effects, findEff_map, he] at hfind
        exact absurd hfind (by simp)
    · rw [play_for_level_switch_some st level e1 hen hne h2 h5 hd hfind]
      refine ⟨rfl, ?_, ?_⟩
      · intro l e hl he
        rw [findEff_setEff_ne l level _ _ hl] at he
        exact hstop l e he
      · intro e _
        exact findEff_setEff_eq level _ e1 _ hfind

/-- Witness for the amended C3: enabled sound, clips loaded for levels 2
and 3, switching from level 1 to level 3 updates `cur_level` to 3. -/
theorem play_for_level_tier_sync_witness :
    ((⟨true, 1, [(2, ⟨false, (0.85 : ℚ)⟩), (3, ⟨true, (0.85 : ℚ)⟩)]⟩ :
        EMFSound)).enabled = true ∧
    (2 : ℤ) ≤ 3 ∧ (3 : ℤ) ≤ 5 ∧ (3 : ℤ) ≠ (1 : ℤ) ∧
    ((⟨true, 1, [(2, ⟨false, (0.85 : ℚ)⟩), (3, ⟨true, (0.85 : ℚ)⟩)]⟩ :
        EMFSound).play_for_level 3).cur_level = 3 :=
  ⟨rfl, by decide, by decide, by decide,
    (play_for_level_tier_sync.2 _ 3 rfl (List.cons_ne_nil _ _) (by decide)
      (by decide) (by decide)).1⟩

-- C9 ------------------------------------------------------------------------

/-- The method `play_for_level` never touches the `enabled` flag. -/
lemma play_for_level_enabled (st : EMFSound) (level : ℤ) :
    (st.play_for_level level).enabled = st.enabled := by
  simp only [EMFSound.play_for_level]
  repeat' split
  all_goals rfl

/-- The method `play_for_level` with sound disabled is exactly `stop`. -/
lemma play_for_level_of_not_enabled (st : EMFSound) (level : ℤ)
    (h : st.enabled = false) : st.play_for_level level = st.stop := by
  simp [EMFSound.play_for_level, h]

/-- After `play_for_level`, `cur_level` is 1, unchanged, or the clamped
new level (which then lies in 2-5). -/
lemma play_for_level_cur_level_cases (st : EMFSound) (level : ℤ) :
    (st.play_for_level level).cur_level = 1 ∨
    (st.play_for_level level).cur_level = st.cur_level ∨
    (2 ≤ (st.play_for_level level).cur_level ∧
      (st.play_for_level level).cur_level ≤ 5) := by
  simp only [EMFSound.play_for_level]
  split
  · exact Or.inl rfl
  · split
    · exact Or.inl rfl
    · split
      · split
        · split
          · exact Or.inr (Or.inl rfl)
          · exact Or.inr (Or.inl rfl)
        · exact Or.inr (Or.inl rfl)
      · split
        · refine Or.inr (Or.inr ⟨?_, ?_⟩) <;> · dsimp only; omega
        · refine Or.inr (Or.inr ⟨?_, ?_⟩) <;> · dsimp only; omega

/-- States of the `EMFSound` object reachable in a run of the program with
`HAVE_SOUND = hs`: the constructed object, closed under `set_muted`,
`stop` and `play_for_level`. -/
inductive EMFReachable (hs : Bool) : EMFSound → Prop
  | init : ∀ (wavExists : ℤ → Bool) (enabled : Bool),
      EMFReachable hs (EMFSound.init hs wavExists enabled)
  | set_muted : ∀ {st : EMFSound} (muted : Bool),
      EMFReachable hs st → EMFReachable hs (st.set_muted hs muted)
  | stop : ∀ {st : EMFSound},
      EMFReachable hs st → EMFReachable hs st.stop
  | play_for_level : ∀ {st : EMFSound} (level : ℤ),
      EMFReachable hs st → EMFReachable hs (st.play_for_level level)

/-- The inductive invariant: the claimed property strengthened with
"enabled only if `HAVE_SOUND`". -/
lemma emf_reachable_inv (hs : Bool) (st : EMFSound)
    (h : EMFReachable hs st) :
    1 ≤ st.cur_level ∧ st.cur_level ≤ 5 ∧
    (st.enabled = false → st.cur_level = 1) ∧
    (st.enabled = true → hs = true) := by
  induction h with
  | init wav en =>
    refine ⟨le_refl 1, ?_, fun _ => rfl, ?_⟩
    · show (1 : ℤ) ≤ 5
      norm_num
    · intro he
      have hand : en = true ∧ hs = true := by
        simpa [EMFSound.init] using he
      exact hand.2
  | @set_muted st muted hr ih =>
    obtain ⟨ih1, ih2, ih3, ih4⟩ := ih
    unfold EMFSound.set_muted
    by_cases hm : muted = true
    · rw [if_pos hm, hm]
      refine ⟨?_, ?_, fun _ => stop_cur_level _, ?_⟩
      · rw [stop_cur_level]
      · rw [stop_cur_level]
        norm_num
      · intro hte
        rw [stop_enabled] at hte
        simp at hte
    · rw [if_neg hm]
      have hm' : muted = false := by simpa using hm
      refine ⟨ih1, ih2, ?_, ?_⟩
      · intro hfe
        rw [hm'] at hfe
        simp at hfe
        have hstf : st.enabled = false := by
          cases hse : st.enabled
          · rfl
          · rw [ih4 hse] at hfe
            exact absurd hfe (by norm_num)
        exact ih3 hstf
      · intro hte
        rw [hm'] at hte
        simpa using hte
  | @stop st hr ih =>
    refine ⟨?_, ?_, fun _ => stop_cur_level _, ?_⟩
    · rw [stop_cur_level]
    · rw [stop_cur_level]
      norm_num
    · intro hte
      rw [stop_enabled] at hte
      exact ih.2.2.2 hte
  | @play_for_level st level hr ih =>
    obtain ⟨ih1, ih2, ih3, ih4⟩ := ih
    refine ⟨?_, ?_, ?_, ?_⟩
    · rcases play_for_level_cur_level_cases st level with h | h | h <;> omega
    · rcases play_for_level_cur_level_cases st level with h | h | h <;> omega
    · intro hfe
      rw [play_for_level_enabled] at hfe
      rw [play_for_level_of_not_enabled st level hfe]
      exact stop_cur_level st
    · intro hte
      rw [play_for_level_enabled] at hte
      exact ih4 hte

/-- C9: after construction and after every operation (`set_muted`, `stop`,
`play_for_level`), `cur_level` lies in [1, 5], and whenever `enabled` is
false, `cur_level` equals 1. -/
theorem emf_sound_invariant (hs : Bool) (st : EMFSound)
    (h : EMFReachable hs st) :
    1 ≤ st.cur_level ∧ st.cur_level ≤ 5 ∧
    (st.enabled = false → st.cur_level = 1) :=
  ⟨(emf_reachable_inv hs st h).1, (emf_reachable_inv hs st h).2.1,
    (emf_reachable_inv hs st h).2.2.1⟩

/-- Witness for C9 at the freshly constructed object (all wav files
present, sound enabled, `HAVE_SOUND` true). -/
theorem emf_sound_invariant_witness :
    1 ≤ (EMFSound.init true (fun _ => true) true).cur_level ∧
    (EMFSound.init true (fun _ => true) true).cur_level ≤ 5 ∧
    ((EMFSound.init true (fun _ => true) true).enabled = false →
      (EMFSound.init true (fun _ => true) true).cur_level = 1) :=
  emf_sound_invariant true _ (EMFReachable.init _ _)

-- Expense records, table rendering, reload ----------------------------------

/-- Modelled from the spec: an expense row as returned by the database
layer (`app/db.py` is not among the sources) — a flat record with exactly
the four fields date, category, description, amount; the description may
be NULL in the store. -/
structure Expense where
  date : String
  category : String
  description : Option String
  amount : ℚ
  deriving DecidableEq, Repr

/-- The four dialog values read by `MainWindow.on_add` from
`AddExpenseDialog.values()`. -/
structure ExpenseInput where
  date : String
  category : String
  description : String
  amount : ℚ
  deriving DecidableEq, Repr

/-- Two-decimal rendering of `f"{x:.2f}"` over `ℚ`: round to hundredths,
print with exactly two decimal digits. -/
def fmtAmount (q : ℚ) : String :=
  let n : ℤ := round (q * 100)
  let sign := if n < 0 then "-" else ""
  let a := n.natAbs
  let fracStr :=
    if a % 100 < 10 then "0" ++ toString (a % 100) else toString (a % 100)
  sign ++ toString (a / 100) ++ "." ++ fracStr

/-- One table row as built by the loop in `MainWindow.reload` (`main.py`
lines 206-216): date, category, `r["description"] or ""`, and the amount
formatted to two decimals. -/
def renderRow (r : Expense) : List String :=
  [r.date, r.category, r.description.getD "", fmtAmount r.amount]

/-- The table-filling loop of `reload`: `setRowCount(0)` resets the table,
then each record appends one rendered row (`insertRow` + four
`setItem`). -/
def reloadTable (rows : List Expense) : List (List String) :=
  rows.foldl (fun tb r => tb ++ [renderRow r]) []

/-- Modelled from the spec: `add_expense` of the database layer creates one
flat expense record from exactly the four fields passed to it. -/
def add_expense (db : List Expense) (date category description : String)
    (amount : ℚ) : List Expense :=
  db ++ [{ date := date, category := category,
           description := some description, amount := amount }]

/-- Embedding of `MainWindow.on_add` (`main.py` lines 226-231): if the
dialog is
accepted, pass exactly the four dialog fields to `add_expense`. -/
def on_add (db : List Expense) (accepted : Bool) (v : ExpenseInput) :
    List Expense :=
  if accepted then add_expense db v.date v.category v.description v.amount
  else db

/-- The `colors` dict of `MainWindow._set_emf_ui` (`main.py` line 197);
`colors[level]` raises `KeyError` outside 1-5, hence `Option`. -/
def emfColor (l : ℤ) : Option String :=
  if l = 1 then some "#6eb6ff"
  else if l = 2 then some "#36b24a"
  else if l = 3 then some "#ffd84a"
  else if l = 4 then some "#ff8f2b"
  else if l = 5 then some "#ff3737"
  else none

/-- Embedding of `MainWindow._set_emf_ui` (`main.py` lines 196-199):
recolor the EMF dot
and set the "EMF n" label.  `none` models the `KeyError` a level outside
the dict would raise. -/
def set_emf_ui (ui : UIState) (level : ℤ) : Option UIState :=
  match emfColor level with
  | none => none
  | some c =>
      some { ui with
              emf_dot_style := "background:" ++ c ++
                ";border-radius:7px;border:1px solid #2a2a2a;"
              lbl_emf := "EMF " ++ toString level }

/-- Embedding of `MainWindow.reload` (`main.py` lines 202-223).  The database layer is
not among the sources, so the rows of the month and the monthly total
(`list_month`, `month_total`, modelled from the spec as the listing and
total of the selected month) enter as parameters.  The body rebuilds the
table, writes the total label, derives the EMF level from the total,
recolors dot and label, and keeps the audio in sync. -/
def MainWindow.reload (rows : List Expense) (currency : String) (total : ℚ)
    (ui : UIState) (sfx : EMFSound) : Option (UIState × EMFSound) :=
  let ui1 := { ui with
                table := reloadTable rows
                lbl_total := "Monthly Total: " ++ currency ++ fmtAmount total }
  let lvl := emf_level_from_total total
  match set_emf_ui ui1 lvl with
  | none => none
  | some ui2 => some (ui2, sfx.play_for_level lvl)

-- C4 ------------------------------------------------------------------------

/-- C4: on every reload, the dot color, the "EMF n" label and the tier sent
to the sound engine are all derived from the same monthly total via
`emf_level_from_total`, so displayed tier and audible tier agree with the
total shown. -/
theorem reload_emf_consistent (rows : List Expense) (currency : String)
    (total : ℚ) (ui : UIState) (sfx : EMFSound) :
    ∃ ui2,
      MainWindow.reload rows currency total ui sfx =
        some (ui2, sfx.play_for_level (emf_level_from_total total)) ∧
      ui2.lbl_emf = "EMF " ++ toString (emf_level_from_total total) ∧
      (∃ c, emfColor (emf_level_from_total total) = some c ∧
        ui2.emf_dot_style = "background:" ++ c ++
          ";border-radius:7px;border:1px solid #2a2a2a;") ∧
      ui2.lbl_total = "Monthly Total: " ++ currency ++ fmtAmount total := by
  rcases emf_level_cases total with h | h | h | h | h <;>
    · simp only [MainWindow.reload, set_emf_ui, emfColor, h]
      exact ⟨_, rfl, rfl, ⟨_, rfl, rfl⟩, rfl⟩

-- C6 ------------------------------------------------------------------------

lemma reloadTable_foldl (rows : List Expense) (acc : List (List String)) :
    rows.foldl (fun tb r => tb ++ [renderRow r]) acc =
      acc ++ rows.map renderRow := by
  induction rows generalizing acc with
  | nil => simp
  | cons r rs ih => simp [ih]

/-- C6: expenses are flat four-field records with no lifecycle beyond
create/list/delete: an accepted add dialog passes exactly date, category,
description and amount to `add_expense` (a rejected one changes nothing),
and `reload` renders exactly these four columns for each record. -/
theorem expense_four_fields :
    (∀ (db : List Expense) (accepted : Bool) (v : ExpenseInput),
        on_add db accepted v =
          if accepted then
            db ++ [{ date := v.date, category := v.category,
                     description := some v.description, amount := v.amount }]
          else db) ∧
    (∀ rows : List Expense,
        reloadTable rows =
          rows.map (fun r =>
            [r.date, r.category, r.description.getD "",
              fmtAmount r.amount])) := by
  constructor
  · intro db accepted v
    cases accepted <;> rfl
  · intro rows
    rw [reloadTable, reloadTable_foldl]
    simp [renderRow]

-- C5 ------------------------------------------------------------------------

/-- A message box raised by an event handler. -/
inductive Dialog where
  | info (title msg : String)
  | critical (title msg : String)
  deriving DecidableEq, Repr

/-- Embedding of `MainWindow.on_export` (`main.py` lines 240-248): `path`
is the save
dialog result (empty on cancel, `if not path: return`); `result` is the
outcome of `export_month_pdf`, with `Except.error` a raised exception.
The `try/except Exception` turns every exception into a critical message
box. -/
def on_export (path : String) (result : Except String Unit) : Option Dialog :=
  if path = "" then none
  else
    match result with
    | .ok _ => some (.info "Export" "PDF saved.")
    | .error e => some (.critical "Export failed" e)

/-- C5 counterexample: `EMFSound.stop` (`main.py` lines 59-63) ALSO catches
exceptions, contradicting "no other operation in the program catches
exceptions": with an `s.stop()` that raises, the method still returns
normally, while the no-catch semantics the spec asserts would propagate
the exception. -/
theorem stop_catches_exceptions_cex :
    EMFSound.stopWith (fun _ _ => Except.error "boom")
        ⟨true, 3, [(3, ⟨true, 1⟩)]⟩ =
      ⟨true, 1, [(3, ⟨true, 1⟩)]⟩ ∧
    EMFSound.stop_spec_nocatch (fun _ _ => Except.error "boom")
        ⟨true, 3, [(3, ⟨true, 1⟩)]⟩ = Except.error "boom" := by
  constructor
  · rfl
  · rfl

lemma stopWith_keys (f : ℤ → SoundEffect → Except String SoundEffect)
    (es : List (ℤ × SoundEffect)) :
    (es.map (fun p =>
      match f p.1 p.2 with
      | .ok e => (p.1, e)
      | .error _ => p)).map Prod.fst = es.map Prod.fst := by
  induction es with
  | nil => rfl
  | cons p ps ih =>
    simp only [List.map_cons, ih]
    cases f p.1 p.2 <;> rfl

/-- C5 (amended): the error handling of the program is the catch-all
around PDF
export — `on_export` surfaces every exception from `export_month_pdf` as a
critical dialog and never propagates — plus the per-effect exception
suppression inside `EMFSound.stop` (and the guarded optional QtMultimedia
import); no other operation catches exceptions. -/
theorem error_handling_surface :
    (∀ e : String, on_export "expenses_2026-10.pdf" (.error e) =
        some (.critical "Export failed" e)) ∧
    on_export "expenses_2026-10.pdf" (.ok ()) =
      some (.info "Export" "PDF saved.") ∧
    (∀ r, on_export "" r = none) ∧
    (∀ (f : ℤ → SoundEffect → Except String SoundEffect) (st : EMFSound),
        (st.stopWith f).cur_level = 1 ∧
        (st.stopWith f).enabled = st.enabled ∧
        (st.stopWith f).effects.map Prod.fst = st.effects.map Prod.fst) := by
  refine ⟨fun e => ?_, ?_, fun r => ?_, fun f st => ⟨rfl, rfl, ?_⟩⟩
  · simp [on_export]
  · simp [on_export]
  · simp [on_export]
  · exact stopWith_keys f st.effects
